import Mathlib

/-!
A shallow embedding of the `CausalAttention` module from
`src/appendix-notebooks/App-B-Transformer-Basic.ipynb` (the only code cell with
original logic), together with theorems settling the specified properties of
its `forward` operation.

Conventions of the embedding:
* Tensors are total functions from natural-number indices to `ℝ`; a 3-D batch
  tensor of shape `(b, n, d)` is a function `ℕ → ℕ → ℕ → ℝ` read as
  batch index ↦ position ↦ feature.  Shape information travels separately, as
  explicit `ℕ` arguments.
* The float value `-inf`, produced by `masked_fill_(mask, -torch.inf)`, is
  encoded by `Option ℝ`: `none` is `-inf` and `some s` a finite score.  The
  float identities used by the source are mirrored exactly: `-inf / c = -inf`
  for `c > 0` (division maps over `Option`) and `exp(-inf) = 0`
  (see `expScore`).
* `nn.Dropout` is embedded at probability `0`, the only configuration the
  notebook instantiates (`CausalAttention(d_in, d_out, context_length, 0.0)`);
  `Dropout(0.0)` is the identity function on its input.
* The in-place `masked_fill_` of the source mutates only the locally created
  `attn_scores` tensor; no attribute of `self` and no element of the caller's
  input is ever written.  `forwardCall` makes this explicit by state passing.
-/

noncomputable section

namespace AppB

/-- A batched 3-D tensor: batch index ↦ position ↦ feature ↦ value. -/
abbrev Tensor3 : Type := ℕ → ℕ → ℕ → ℝ

/-- The state of a `CausalAttention` module after `__init__`: the
configuration `(d_in, d_out, context_length, qkv_bias)` plus the three
`nn.Linear` projections.  Each `nn.Linear(d_in, d_out, bias=qkv_bias)` holds a
weight matrix of shape `(d_out, d_in)` (row `j` , column `i` accessed as
`W j i`) and a bias vector used only when `qkv_bias` is `true`.  The
registered buffer `mask = torch.triu(torch.ones(context_length,
context_length), diagonal=1)` is a pure function of `context_length`, so it is
not stored but recomputed by `maskEntry` below. -/
structure CausalAttention where
  d_in : ℕ
  d_out : ℕ
  context_length : ℕ
  W_query : ℕ → ℕ → ℝ
  W_key : ℕ → ℕ → ℝ
  W_value : ℕ → ℕ → ℝ
  b_query : ℕ → ℝ
  b_key : ℕ → ℝ
  b_value : ℕ → ℝ
  qkv_bias : Bool

/-- The map `nn.Linear(d_in, d_out, bias=useBias)` applied to one vector `v`:
output feature `j` is `∑ i < d_in, W j i * v i`, plus the bias entry when the
bias is enabled. -/
def linearApply (d_in : ℕ) (W : ℕ → ℕ → ℝ) (bias : ℕ → ℝ) (useBias : Bool)
    (v : ℕ → ℝ) (j : ℕ) : ℝ :=
  (∑ i ∈ Finset.range d_in, W j i * v i) + (if useBias then bias j else 0)

/-- The tensor `keys = self.W_key(x)`: shape `(b, n, d_out)`. -/
def keys (ca : CausalAttention) (x : Tensor3) (bi t j : ℕ) : ℝ :=
  linearApply ca.d_in ca.W_key ca.b_key ca.qkv_bias (x bi t) j

/-- The tensor `queries = self.W_query(x)`: shape `(b, n, d_out)`. -/
def queries (ca : CausalAttention) (x : Tensor3) (bi t j : ℕ) : ℝ :=
  linearApply ca.d_in ca.W_query ca.b_query ca.qkv_bias (x bi t) j

/-- The tensor `values = self.W_value(x)`: shape `(b, n, d_out)`. -/
def values (ca : CausalAttention) (x : Tensor3) (bi t j : ℕ) : ℝ :=
  linearApply ca.d_in ca.W_value ca.b_value ca.qkv_bias (x bi t) j

/-- The tensor `attn_scores = queries @ keys.transpose(1, 2)`: entry `(bi, i, j)` is the
dot product of query row `i` with key row `j` over the `d_out` features. -/
def attnScores (ca : CausalAttention) (x : Tensor3) (bi i j : ℕ) : ℝ :=
  ∑ f ∈ Finset.range ca.d_out, queries ca x bi i f * keys ca x bi j f

/-- Entry `(i, j)` of `self.mask.bool()`, where
`mask = torch.triu(torch.ones(c, c), diagonal=1)`: `true` exactly at the
strictly-upper-triangular positions `j > i`. -/
def maskEntry (i j : ℕ) : Bool :=
  decide (i < j)

/-- Entry `(i, j)` of the mask argument `self.mask.bool()[:num_tokens,
:num_tokens]` as `masked_fill_` sees it after broadcasting it to the
`(num_tokens, num_tokens)` score matrix.  The slice is a square matrix of side
`m = min num_tokens context_length`.  PyTorch broadcasting reads the slice at
`(i, j)` when `m = num_tokens`, and at `(0, 0)` — where `triu(..., diagonal=1)`
is `0` — when `m = 1`.  Any other `m` is not broadcastable and `masked_fill_`
raises; that unreachable branch returns `false`. -/
def slicedMask (context_length num_tokens i j : ℕ) : Bool :=
  if min num_tokens context_length = num_tokens then maskEntry i j
  else if min num_tokens context_length = 1 then maskEntry 0 0
  else false

/-- Whether `masked_fill_` accepts the sliced mask: the
`(m, m)` slice, `m = min num_tokens context_length`, is broadcastable to the
`(b, num_tokens, num_tokens)` score tensor exactly when `m = num_tokens` or
`m = 1`. -/
def maskBroadcastable (context_length num_tokens : ℕ) : Bool :=
  (min num_tokens context_length == num_tokens) ||
    (min num_tokens context_length == 1)

/-- The statement `attn_scores.masked_fill_(self.mask.bool()[:num_tokens,
:num_tokens], -torch.inf)`: scores after the in-place fill, with `none` standing for the
float `-inf`. -/
def maskedScores (ca : CausalAttention) (n : ℕ) (x : Tensor3) (bi i j : ℕ) :
    Option ℝ :=
  if slicedMask ca.context_length n i j then none
  else some (attnScores ca x bi i j)

/-- The quotient `attn_scores / keys.shape[-1]**0.5`: every (possibly `-inf`) score divided
by the square root of the key feature width `d_out`; the float identity
`-inf / sqrt d_out = -inf` (for positive divisor) is the `Option.map`. -/
def scaledScores (ca : CausalAttention) (n : ℕ) (x : Tensor3) (bi i j : ℕ) :
    Option ℝ :=
  (maskedScores ca n x bi i j).map (fun s => s / Real.sqrt ca.d_out)

/-- Float exponential on a possibly `-inf` score: `exp(-inf) = 0`. -/
def expScore : Option ℝ → ℝ
  | none => 0
  | some s => Real.exp s

/-- The tensor `attn_weights = torch.softmax(..., dim=-1)`: row `i` of the weight matrix
is the softmax of row `i` of the scaled scores over the `n` columns. -/
def attnWeights (ca : CausalAttention) (n : ℕ) (x : Tensor3) (bi i j : ℕ) : ℝ :=
  expScore (scaledScores ca n x bi i j) /
    ∑ k ∈ Finset.range n, expScore (scaledScores ca n x bi i k)

/-- The layer `self.dropout` at the instantiated probability `0.0`:
`nn.Dropout(0.0)` returns its input unchanged. -/
def dropoutZero (w : ℕ → ℝ) : ℕ → ℝ := w

/-- The tensor `context_vec = attn_weights @ values`: entry `(bi, t, f)` is the weighted
sum of value rows by the (dropout-passed) attention weights of row `t`. -/
def contextVec (ca : CausalAttention) (n : ℕ) (x : Tensor3) (bi t f : ℕ) : ℝ :=
  ∑ k ∈ Finset.range n, dropoutZero (attnWeights ca n x bi t) k * values ca x bi k f

/-- The operation `CausalAttention.forward` on a batch of shape `(b, n, d)`.  The call
completes exactly when the two implicit shape checks of the source pass:
`self.W_key(x)` (and the other projections) require the input feature width
`d` to equal the configured `d_in`, and `masked_fill_` requires the sliced
mask to be broadcastable to the `(b, n, n)` score tensor.  Any violation
raises, i.e. returns `none` with no partial result. -/
def forward (ca : CausalAttention) (b n d : ℕ) (x : Tensor3) : Option Tensor3 :=
  if d = ca.d_in ∧ maskBroadcastable ca.context_length n = true then
    some (fun bi t f => contextVec ca n x bi t f)
  else none

/-- State-passing form of one `forward` call.  Every statement of the source
either reads `self` (weights, mask, dropout) or the argument `x`, or writes a
tensor created inside the call (`masked_fill_`, the only in-place op, targets
the locally built `attn_scores`), so the translated call threads the module
state and the caller's input through unchanged alongside the result. -/
def forwardCall (ca : CausalAttention) (b n d : ℕ) (x : Tensor3) :
    Option Tensor3 × CausalAttention × Tensor3 :=
  (forward ca b n d x, ca, x)

/-- The `inputs` tensor of the notebook: six 3-feature token embeddings
(rows in order: Your, journey, starts, with, one, step); entries outside the
6 × 3 shape are 0. -/
def inputsEx : ℕ → ℕ → ℝ := fun t f =>
  match t, f with
  | 0, 0 => 0.43 | 0, 1 => 0.15 | 0, 2 => 0.89
  | 1, 0 => 0.55 | 1, 1 => 0.87 | 1, 2 => 0.66
  | 2, 0 => 0.57 | 2, 1 => 0.85 | 2, 2 => 0.64
  | 3, 0 => 0.22 | 3, 1 => 0.58 | 3, 2 => 0.33
  | 4, 0 => 0.77 | 4, 1 => 0.25 | 4, 2 => 0.10
  | 5, 0 => 0.05 | 5, 1 => 0.80 | 5, 2 => 0.55
  | _, _ => 0

/-- The tensor `batch = torch.stack((inputs, inputs), dim=0)`: every batch
slice is `inputs`. -/
def batchEx : Tensor3 := fun _ t f => inputsEx t f

/-- The module instantiated in the notebook,
`CausalAttention(d_in=3, d_out=2, context_length=6, dropout=0.0)`; the
notebook draws the projection weights from a seeded random generator, so
concrete stand-in weights are used here (the claims quantify over weights). -/
def caEx : CausalAttention where
  d_in := 3
  d_out := 2
  context_length := 6
  W_query := fun j i => (j + i : ℝ) / 10
  W_key := fun j i => (j : ℝ) / 7 + (i : ℝ) / 5
  W_value := fun j i => (i : ℝ) / 3 - (j : ℝ) / 4
  b_query := fun _ => 0
  b_key := fun _ => 0
  b_value := fun _ => 0
  qkv_bias := false

/-- A module whose precomputed mask is 1 × 1 (`context_length = 1`), used to
exercise `forward` on sequences longer than the mask. -/
def caTiny : CausalAttention where
  d_in := 3
  d_out := 2
  context_length := 1
  W_query := fun _ _ => 1
  W_key := fun _ _ => 1
  W_value := fun _ _ => 1
  b_query := fun _ => 0
  b_key := fun _ => 0
  b_value := fun _ => 0
  qkv_bias := false

/-- The exponential of any (possibly `-inf`) score is nonnegative. -/
lemma expScore_nonneg (o : Option ℝ) : 0 ≤ expScore o := by
  cases o with
  | none => exact le_refl 0
  | some s => exact le_of_lt (Real.exp_pos s)

/-- When the sequence fits in the context window, the sliced mask is just the
top-left block of the full triangular mask. -/
lemma slicedMask_of_le {c n : ℕ} (h : n ≤ c) (i j : ℕ) :
    slicedMask c n i j = maskEntry i j := by
  simp [slicedMask, Nat.min_eq_left h]

/-- When the sequence fits in the context window, the sliced mask is
broadcastable (it already has the score matrix's shape). -/
lemma maskBroadcastable_of_le {c n : ℕ} (h : n ≤ c) :
    maskBroadcastable c n = true := by
  simp [maskBroadcastable, Nat.min_eq_left h]

/-- Characterization of mask broadcastability: the `(m, m)` slice,
`m = min n c`, broadcasts to the `(n, n)` score matrix exactly when the
sequence fits (`m = n`) or the slice is a single entry (`m = 1`). -/
lemma maskBroadcastable_iff (c n : ℕ) :
    maskBroadcastable c n = true ↔ (n ≤ c ∨ c = 1) := by
  simp only [maskBroadcastable, Bool.or_eq_true, beq_iff_eq]
  omega

/-- In-window form of the scaled scores: strictly-future positions are
`-inf`, the rest the scaled query-key dot products. -/
lemma scaledScores_of_le (ca : CausalAttention) {n : ℕ}
    (h : n ≤ ca.context_length) (x : Tensor3) (bi i j : ℕ) :
    scaledScores ca n x bi i j =
      if i < j then none
      else some (attnScores ca x bi i j / Real.sqrt ca.d_out) := by
  by_cases hij : i < j <;>
    simp [scaledScores, maskedScores, slicedMask_of_le h, maskEntry, hij]

/-- The softmax denominator of an in-range row is positive: the diagonal
score survives the mask and its exponential is positive. -/
lemma softmax_denom_pos (ca : CausalAttention) {n i : ℕ}
    (h : n ≤ ca.context_length) (hi : i < n) (x : Tensor3) (bi : ℕ) :
    0 < ∑ k ∈ Finset.range n, expScore (scaledScores ca n x bi i k) := by
  apply Finset.sum_pos'
  · intro k _
    exact expScore_nonneg _
  · refine ⟨i, Finset.mem_range.2 hi, ?_⟩
    rw [scaledScores_of_le ca h]
    simp [expScore, Real.exp_pos]

/-- Attention weights at strictly-future positions are exactly zero: the
masked score is `-inf`, whose exponential is zero. -/
lemma attnWeights_future_zero (ca : CausalAttention) {n i j : ℕ}
    (h : n ≤ ca.context_length) (hij : i < j) (x : Tensor3) (bi : ℕ) :
    attnWeights ca n x bi i j = 0 := by
  unfold attnWeights
  rw [scaledScores_of_le ca h]
  simp [hij, expScore]

/-- Transcription of the specification's mask step, written from the spec's
words rather than the code: the mask `M` sets every score at position
`(i, j)` with `j > i` (strictly future) to `-inf` and leaves the rest of
`Q Kᵀ` unchanged. -/
def specMasked (ca : CausalAttention) (x : Tensor3) (bi i j : ℕ) : Option ℝ :=
  if j > i then none else some (attnScores ca x bi i j)

/-- Transcription of the specification's normalization step: divide the
masked scores by the square root of the output (key) dimension `d_out` — not
the input dimension — and apply a row-wise softmax. -/
def specWeight (ca : CausalAttention) (n : ℕ) (x : Tensor3) (bi i j : ℕ) : ℝ :=
  expScore ((specMasked ca x bi i j).map (fun s => s / Real.sqrt ca.d_out)) /
    ∑ k ∈ Finset.range n,
      expScore ((specMasked ca x bi i k).map (fun s => s / Real.sqrt ca.d_out))

/-- Transcription of the specification's output formula
`softmax(M(Q Kᵀ) / sqrt d_out) V`, per batch element. -/
def specAttention (ca : CausalAttention) (n : ℕ) (x : Tensor3) : Tensor3 :=
  fun bi t f =>
    ∑ k ∈ Finset.range n, specWeight ca n x bi t k * values ca x bi k f

/-- In-window masked scores agree with the specification's mask step. -/
lemma maskedScores_of_le (ca : CausalAttention) {n : ℕ}
    (h : n ≤ ca.context_length) (x : Tensor3) (bi i j : ℕ) :
    maskedScores ca n x bi i j = specMasked ca x bi i j := by
  by_cases hij : i < j <;>
    simp [maskedScores, specMasked, slicedMask_of_le h, maskEntry, hij]

/-- C1: for every input batch of shape `(b, n, d)` with `n` within the
configured context length (and matching feature width), `forward` returns
exactly `softmax(M(Q Kᵀ) / sqrt d_out) V` per batch element, where `Q`, `K`,
`V` are the three linear projections of the input, `M` sends every score at
`(i, j)` with `j > i` to `-inf`, and the scaling divisor is the square root
of the output (key) dimension `d_out`. -/
theorem forward_matches_spec_formula (ca : CausalAttention) (b n d : ℕ)
    (x : Tensor3) (hd : d = ca.d_in) (hn : n ≤ ca.context_length)
    (hdo : 0 < ca.d_out) :
    forward ca b n d x = some (specAttention ca n x) := by
  have hw : ∀ bi i j, attnWeights ca n x bi i j = specWeight ca n x bi i j := by
    intro bi i j
    simp only [attnWeights, specWeight, scaledScores, maskedScores_of_le ca hn]
  unfold forward
  rw [if_pos ⟨hd, maskBroadcastable_of_le hn⟩]
  congr 1
  funext bi t f
  simp only [specAttention, contextVec, dropoutZero, hw]

/-- Witness for C1 at the notebook's instantiation: batch of two copies of
the six-token inputs, `d_in = 3`, `d_out = 2`, `context_length = 6`. -/
theorem forward_matches_spec_formula_witness :
    ((3 : ℕ) = caEx.d_in ∧ 6 ≤ caEx.context_length ∧ 0 < caEx.d_out) ∧
    forward caEx 2 6 3 batchEx = some (specAttention caEx 6 batchEx) :=
  ⟨⟨rfl, by decide, by decide⟩,
   forward_matches_spec_formula caEx 2 6 3 batchEx rfl (by decide) (by decide)⟩

/-- C2: on a valid batch, every in-range row of the attention-weight matrix
sums to exactly 1, and every entry at a strictly-future position is exactly
zero (the masked score is `-inf` before softmax, and `exp(-inf) = 0`). -/
theorem attn_rows_stochastic_future_zero (ca : CausalAttention)
    (b n d i : ℕ) (x : Tensor3) (hd : d = ca.d_in)
    (hn : n ≤ ca.context_length) (hdo : 0 < ca.d_out) (hi : i < n) :
    forward ca b n d x ≠ none ∧
    (∀ bi, ∑ j ∈ Finset.range n, attnWeights ca n x bi i j = 1) ∧
    (∀ bi j, i < j → j < n → attnWeights ca n x bi i j = 0) := by
  refine ⟨?_, ?_, ?_⟩
  · unfold forward
    rw [if_pos ⟨hd, maskBroadcastable_of_le hn⟩]
    exact Option.some_ne_none _
  · intro bi
    have hD := softmax_denom_pos ca hn hi x bi
    unfold attnWeights
    rw [← Finset.sum_div, div_self (ne_of_gt hD)]
  · intro bi j hij hjn
    exact attnWeights_future_zero ca hn hij x bi

/-- Witness for C2: row 2 of the notebook instantiation. -/
theorem attn_rows_stochastic_future_zero_witness :
    ((3 : ℕ) = caEx.d_in ∧ 6 ≤ caEx.context_length ∧ 0 < caEx.d_out ∧
      2 < 6) ∧
    (forward caEx 2 6 3 batchEx ≠ none ∧
     (∀ bi, ∑ j ∈ Finset.range 6, attnWeights caEx 6 batchEx bi 2 j = 1) ∧
     (∀ bi j, 2 < j → j < 6 → attnWeights caEx 6 batchEx bi 2 j = 0)) :=
  ⟨⟨rfl, by decide, by decide, by decide⟩,
   attn_rows_stochastic_future_zero caEx 2 6 3 2 batchEx rfl (by decide)
     (by decide) (by decide)⟩

/-- A linear layer only reads its input vector pointwise, so pointwise-equal
inputs give equal outputs. -/
lemma linearApply_congr (d : ℕ) (W : ℕ → ℕ → ℝ) (bias : ℕ → ℝ) (u : Bool)
    {v w : ℕ → ℝ} (h : ∀ f, v f = w f) (j : ℕ) :
    linearApply d W bias u v j = linearApply d W bias u w j := by
  unfold linearApply
  congr 1
  exact Finset.sum_congr rfl fun i _ => by rw [h i]

/-- C3 (future-independence): if two batches agree on every position at or
before `i` (and are valid for the module), `forward` succeeds on both and the
context vectors at position `i` coincide, whatever the inputs at positions
after `i` are. -/
theorem forward_future_independent (ca : CausalAttention) (b n d i : ℕ)
    (x y : Tensor3) (hd : d = ca.d_in) (hn : n ≤ ca.context_length)
    (hdo : 0 < ca.d_out) (hi : i < n)
    (hagree : ∀ bi t, t ≤ i → ∀ f, x bi t f = y bi t f) :
    ∃ cx cy, forward ca b n d x = some cx ∧ forward ca b n d y = some cy ∧
      ∀ bi f, cx bi i f = cy bi i f := by
  refine ⟨fun bi t f => contextVec ca n x bi t f,
          fun bi t f => contextVec ca n y bi t f, ?_, ?_, ?_⟩
  · unfold forward
    rw [if_pos ⟨hd, maskBroadcastable_of_le hn⟩]
  · unfold forward
    rw [if_pos ⟨hd, maskBroadcastable_of_le hn⟩]
  intro bi f
  have hq : ∀ g, queries ca x bi i g = queries ca y bi i g := fun g =>
    linearApply_congr _ _ _ _ (hagree bi i le_rfl) g
  have hk : ∀ t, t ≤ i → ∀ g, keys ca x bi t g = keys ca y bi t g :=
    fun t ht g => linearApply_congr _ _ _ _ (hagree bi t ht) g
  have hv : ∀ t, t ≤ i → ∀ g, values ca x bi t g = values ca y bi t g :=
    fun t ht g => linearApply_congr _ _ _ _ (hagree bi t ht) g
  have hscore : ∀ k, k ≤ i →
      attnScores ca x bi i k = attnScores ca y bi i k := by
    intro k hk2
    unfold attnScores
    exact Finset.sum_congr rfl fun g _ => by rw [hq g, hk k hk2 g]
  have hsc : ∀ k, scaledScores ca n x bi i k = scaledScores ca n y bi i k := by
    intro k
    rw [scaledScores_of_le ca hn, scaledScores_of_le ca hn]
    by_cases hik : i < k
    · simp [hik]
    · have := hscore k (Nat.le_of_not_lt hik)
      simp [hik, this]
  have hw : ∀ k, attnWeights ca n x bi i k = attnWeights ca n y bi i k := by
    intro k
    unfold attnWeights
    rw [hsc k]
    congr 1
    exact Finset.sum_congr rfl fun m _ => by rw [hsc m]
  unfold contextVec dropoutZero
  apply Finset.sum_congr rfl
  intro k _
  by_cases hki : k ≤ i
  · rw [hw k, hv k hki f]
  · have hik : i < k := Nat.lt_of_not_le hki
    rw [attnWeights_future_zero ca hn hik x bi,
        attnWeights_future_zero ca hn hik y bi, zero_mul, zero_mul]

/-- Witness for C3: the two batches agree everywhere up to position 3 (they
differ at positions 4 and 5 of batch slice 0). -/
theorem forward_future_independent_witness :
    ((3 : ℕ) = caEx.d_in ∧ 6 ≤ caEx.context_length ∧ 0 < caEx.d_out ∧
      3 < 6 ∧
      (∀ bi t, t ≤ 3 → ∀ f,
        batchEx bi t f =
          (fun bi t f => if bi = 0 ∧ 3 < t then batchEx bi t f + 1
            else batchEx bi t f) bi t f)) ∧
    ∃ cx cy, forward caEx 2 6 3 batchEx = some cx ∧
      forward caEx 2 6 3
        (fun bi t f => if bi = 0 ∧ 3 < t then batchEx bi t f + 1
          else batchEx bi t f) = some cy ∧
      ∀ bi f, cx bi 3 f = cy bi 3 f := by
  have hag : ∀ bi t, t ≤ 3 → ∀ f,
      batchEx bi t f =
        (fun bi t f => if bi = 0 ∧ 3 < t then batchEx bi t f + 1
          else batchEx bi t f) bi t f := by
    intro bi t ht f
    simp only
    rw [if_neg]
    intro hcon
    exact absurd (Nat.lt_of_lt_of_le hcon.2 ht) (Nat.lt_irrefl 3)
  exact ⟨⟨rfl, by decide, by decide, by decide, hag⟩,
    forward_future_independent caEx 2 6 3 3 batchEx _ rfl (by decide)
      (by decide) (by decide) hag⟩

/-- The diagonal weight of row 0 is 1: every other column of row 0 is
strictly future, so only the diagonal exponential survives in the softmax
denominator. -/
lemma attnWeights_row_zero_diag (ca : CausalAttention) {n : ℕ}
    (hn : n ≤ ca.context_length) (h1 : 1 ≤ n) (x : Tensor3) (bi : ℕ) :
    attnWeights ca n x bi 0 0 = 1 := by
  have hdiag : scaledScores ca n x bi 0 0 =
      some (attnScores ca x bi 0 0 / Real.sqrt ca.d_out) := by
    rw [scaledScores_of_le ca hn]
    simp
  have hsum : ∑ k ∈ Finset.range n, expScore (scaledScores ca n x bi 0 k) =
      expScore (scaledScores ca n x bi 0 0) := by
    apply Finset.sum_eq_single_of_mem 0 (Finset.mem_range.2 h1)
    intro k _ hk0
    rw [scaledScores_of_le ca hn]
    simp [Nat.pos_of_ne_zero hk0, expScore]
  unfold attnWeights
  rw [hsum, hdiag]
  exact div_self (ne_of_gt (Real.exp_pos _))

/-- The context vector at position 0 is exactly the value projection of the
first token: row 0 of the weight matrix puts weight 1 on column 0 and 0
elsewhere. -/
lemma contextVec_row_zero (ca : CausalAttention) {n : ℕ}
    (hn : n ≤ ca.context_length) (h1 : 1 ≤ n) (x : Tensor3) (bi f : ℕ) :
    contextVec ca n x bi 0 f = values ca x bi 0 f := by
  unfold contextVec dropoutZero
  have hsum : ∑ k ∈ Finset.range n, attnWeights ca n x bi 0 k * values ca x bi k f =
      attnWeights ca n x bi 0 0 * values ca x bi 0 f := by
    apply Finset.sum_eq_single_of_mem 0 (Finset.mem_range.2 h1)
    intro k _ hk0
    rw [attnWeights_future_zero ca hn (Nat.pos_of_ne_zero hk0) x bi, zero_mul]
  rw [hsum, attnWeights_row_zero_diag ca hn h1 x bi, one_mul]

/-- C4: on a batch of sequence length 1 the single attention weight is 1,
and the returned context vector is exactly the value projection of the
single token. -/
theorem forward_single_token (ca : CausalAttention) (b d : ℕ) (x : Tensor3)
    (hd : d = ca.d_in) (hc : 1 ≤ ca.context_length) (hdo : 0 < ca.d_out) :
    (∀ bi, attnWeights ca 1 x bi 0 0 = 1) ∧
    ∃ out, forward ca b 1 d x = some out ∧
      ∀ bi f, out bi 0 f = values ca x bi 0 f := by
  refine ⟨fun bi => attnWeights_row_zero_diag ca hc le_rfl x bi,
    fun bi t f => contextVec ca 1 x bi t f, ?_, ?_⟩
  · unfold forward
    rw [if_pos ⟨hd, maskBroadcastable_of_le hc⟩]
  · intro bi f
    exact contextVec_row_zero ca hc le_rfl x bi f

/-- Witness for C4: a single-token batch cut from the notebook inputs. -/
theorem forward_single_token_witness :
    ((3 : ℕ) = caEx.d_in ∧ 1 ≤ caEx.context_length ∧ 0 < caEx.d_out) ∧
    ((∀ bi, attnWeights caEx 1 batchEx bi 0 0 = 1) ∧
     ∃ out, forward caEx 2 1 3 batchEx = some out ∧
       ∀ bi f, out bi 0 f = values caEx batchEx bi 0 f) :=
  ⟨⟨rfl, by decide, by decide⟩,
   forward_single_token caEx 2 3 batchEx rfl (by decide) (by decide)⟩

/-- C5 (determinism): `forward` is a pure function of the module state and
the input batch — two calls on pointwise-identical batches return identical
results. -/
theorem forward_deterministic (ca : CausalAttention) (b n d : ℕ)
    (x y : Tensor3) (h : ∀ bi t f, x bi t f = y bi t f) :
    forward ca b n d x = forward ca b n d y := by
  have hxy : x = y := funext fun bi => funext fun t => funext fun f => h bi t f
  rw [hxy]

/-- Witness for C5 at the notebook batch. -/
theorem forward_deterministic_witness :
    (∀ bi t f, batchEx bi t f = (fun _ t f => inputsEx t f) bi t f) ∧
    forward caEx 2 6 3 batchEx = forward caEx 2 6 3 (fun _ t f => inputsEx t f) :=
  ⟨fun _ _ _ => rfl,
   forward_deterministic caEx 2 6 3 batchEx _ fun _ _ _ => rfl⟩

/-- The computation for one batch element reads only that element's slice of
the input, so pointwise-equal slices produce equal context-vector slices. -/
lemma contextVec_congr_batch (ca : CausalAttention) (n : ℕ) (x : Tensor3)
    (b1 b2 : ℕ) (h : ∀ t f, x b1 t f = x b2 t f) (t f : ℕ) :
    contextVec ca n x b1 t f = contextVec ca n x b2 t f := by
  have hfun : ∀ t, x b1 t = x b2 t := fun t => funext (h t)
  simp only [contextVec, dropoutZero, attnWeights, scaledScores, maskedScores,
    attnScores, queries, keys, values, hfun]

/-- C6 (batch independence): on a valid batch, two batch elements holding
pointwise-equal sequences receive identical context-vector slices. -/
theorem forward_batch_independent (ca : CausalAttention) (b n d b1 b2 : ℕ)
    (x : Tensor3) (hd : d = ca.d_in) (hn : n ≤ ca.context_length)
    (hdo : 0 < ca.d_out) (hslice : ∀ t f, x b1 t f = x b2 t f) :
    ∃ out, forward ca b n d x = some out ∧ ∀ t f, out b1 t f = out b2 t f := by
  refine ⟨fun bi t f => contextVec ca n x bi t f, ?_, ?_⟩
  · unfold forward
    rw [if_pos ⟨hd, maskBroadcastable_of_le hn⟩]
  · intro t f
    exact contextVec_congr_batch ca n x b1 b2 hslice t f

/-- Witness for C6, the concrete case of the claim: a batch of two copies of
the notebook's six-token three-feature sequence, with `d_in = 3` and
`d_out = 2`. -/
theorem forward_batch_independent_witness :
    ((3 : ℕ) = caEx.d_in ∧ 6 ≤ caEx.context_length ∧ 0 < caEx.d_out ∧
      (∀ t f, batchEx 0 t f = batchEx 1 t f)) ∧
    ∃ out, forward caEx 2 6 3 batchEx = some out ∧
      ∀ t f, out 0 t f = out 1 t f :=
  ⟨⟨rfl, by decide, by decide, fun _ _ => rfl⟩,
   forward_batch_independent caEx 2 6 3 0 1 batchEx rfl (by decide)
     (by decide) (fun _ _ => rfl)⟩

/-- C7 fails as stated: with a 1 × 1 precomputed mask (`context_length = 1`)
a six-token batch exceeds the configured maximum context length, yet
`forward` completes — the 1 × 1 mask slice broadcasts over the 6 × 6 score
matrix instead of raising — so the call does not fail. -/
theorem forward_failure_claim_counterexample :
    caTiny.context_length < 6 ∧ forward caTiny 2 6 3 batchEx ≠ none := by
  constructor
  · decide
  · unfold forward
    rw [if_pos ⟨rfl, by decide⟩]
    exact Option.some_ne_none _

/-- C7 (amended): `forward` fails — aborting with no partial result — exactly
when the feature width disagrees with the configured input dimension, or the
sequence length exceeds the mask's maximum length while that maximum is not
1 (a 1 × 1 sliced mask broadcasts over any score matrix, so a module with
maximum context length 1 silently accepts longer sequences). -/
theorem forward_failure_condition (ca : CausalAttention) (b n d : ℕ)
    (x : Tensor3) :
    forward ca b n d x = none ↔
      d ≠ ca.d_in ∨ (ca.context_length < n ∧ ca.context_length ≠ 1) := by
  unfold forward
  split_ifs with h
  · obtain ⟨h1, h2⟩ := h
    rw [maskBroadcastable_iff] at h2
    constructor
    · intro hcon
      simp at hcon
    · intro hor
      exfalso
      rcases hor with hne | ⟨hlt, hne1⟩
      · exact hne h1
      · rcases h2 with hle | h1c
        · omega
        · exact hne1 h1c
  · constructor
    · intro _
      by_cases hdd : d = ca.d_in
      · right
        have h2 : ¬ maskBroadcastable ca.context_length n = true := fun hb =>
          h ⟨hdd, hb⟩
        rw [maskBroadcastable_iff] at h2
        push_neg at h2
        omega
      · exact Or.inl hdd
    · intro _
      rfl

/-- C8 (frame condition): the state-passing form of a `forward` call returns
the module state (weights and mask configuration) and the caller's input
batch unchanged; its only caller-visible product is the result of
`forward`. -/
theorem forwardCall_frame (ca : CausalAttention) (b n d : ℕ) (x : Tensor3) :
    (forwardCall ca b n d x).2.1 = ca ∧ (forwardCall ca b n d x).2.2 = x ∧
    (forwardCall ca b n d x).1 = forward ca b n d x :=
  ⟨rfl, rfl, rfl⟩

/-- C9 (mask-slicing consistency): within the window only the top-left
`n × n` block of the precomputed mask acts (the sliced mask equals the full
triangular mask entrywise), so two modules identical except for their
`context_length` — both at least `n` — return equal outputs on the same
length-`n` batch. -/
theorem forward_mask_slice_consistent (ca : CausalAttention)
    (b n d c1 c2 : ℕ) (x : Tensor3) (hd : d = ca.d_in)
    (h1 : n ≤ c1) (h2 : n ≤ c2) (hdo : 0 < ca.d_out) :
    (∀ i j, slicedMask c1 n i j = maskEntry i j) ∧
    forward { ca with context_length := c1 } b n d x =
      forward { ca with context_length := c2 } b n d x := by
  constructor
  · exact fun i j => slicedMask_of_le h1 i j
  · unfold forward
    rw [if_pos ⟨hd, maskBroadcastable_of_le h1⟩,
        if_pos ⟨hd, maskBroadcastable_of_le h2⟩]
    congr 1
    funext bi t f
    simp only [contextVec, dropoutZero, attnWeights, scaledScores,
      maskedScores, attnScores, queries, keys, values,
      slicedMask_of_le h1, slicedMask_of_le h2]

/-- Witness for C9: the notebook module with mask sizes 6 and 8 on the
six-token batch. -/
theorem forward_mask_slice_consistent_witness :
    ((3 : ℕ) = caEx.d_in ∧ 6 ≤ 6 ∧ 6 ≤ 8 ∧ 0 < caEx.d_out) ∧
    ((∀ i j, slicedMask 6 6 i j = maskEntry i j) ∧
     forward { caEx with context_length := 6 } 2 6 3 batchEx =
       forward { caEx with context_length := 8 } 2 6 3 batchEx) :=
  ⟨⟨rfl, by decide, by decide, by decide⟩,
   forward_mask_slice_consistent caEx 2 6 3 6 8 batchEx rfl (by decide)
     (by decide) (by decide)⟩

/-- C10: on any valid batch the first row of the attention-weight matrix is
the one-hot distribution `(1, 0, ..., 0)`, so the context vector at position
0 equals the value projection of the first token regardless of the rest of
the sequence. -/
theorem first_row_one_hot (ca : CausalAttention) (b n d : ℕ) (x : Tensor3)
    (hd : d = ca.d_in) (hn : n ≤ ca.context_length) (h1 : 1 ≤ n)
    (hdo : 0 < ca.d_out) :
    (∀ bi, attnWeights ca n x bi 0 0 = 1) ∧
    (∀ bi j, 0 < j → j < n → attnWeights ca n x bi 0 j = 0) ∧
    ∃ out, forward ca b n d x = some out ∧
      ∀ bi f, out bi 0 f = values ca x bi 0 f := by
  refine ⟨fun bi => attnWeights_row_zero_diag ca hn h1 x bi,
    fun bi j hj _ => attnWeights_future_zero ca hn hj x bi,
    fun bi t f => contextVec ca n x bi t f, ?_,
    fun bi f => contextVec_row_zero ca hn h1 x bi f⟩
  unfold forward
  rw [if_pos ⟨hd, maskBroadcastable_of_le hn⟩]

/-- Witness for C10 on the six-token notebook batch. -/
theorem first_row_one_hot_witness :
    ((3 : ℕ) = caEx.d_in ∧ 6 ≤ caEx.context_length ∧ 1 ≤ 6 ∧
      0 < caEx.d_out) ∧
    ((∀ bi, attnWeights caEx 6 batchEx bi 0 0 = 1) ∧
     (∀ bi j, 0 < j → j < 6 → attnWeights caEx 6 batchEx bi 0 j = 0) ∧
     ∃ out, forward caEx 2 6 3 batchEx = some out ∧
       ∀ bi f, out bi 0 f = values caEx batchEx bi 0 f) :=
  ⟨⟨rfl, by decide, by decide, by decide⟩,
   first_row_one_hot caEx 2 6 3 batchEx rfl (by decide) (by decide)
     (by decide)⟩

end AppB

end
